import Mathlib

/-!
Verification of the chat front-end in src/app.py and src/gemini_pdf_chat.py
(the two files are line-for-line identical on everything verified here).
Modelled components:

* the response cache, a `cachetools.TTLCache(maxsize=100, ttl=300)`;
* the citation formatter of `process_user_input` (the regex rewrite of
  citation urls, deduplication, and the appended sources block);
* the session controller (`process_user_input`, `clear_chat_history`);
* `add_pdf_to_knowledge_base` and its temporary-file lifecycle;
* the streaming bridge: the background `app_response` thread, the FIFO
  queue filled by the streaming callback, the shared result dict, and the
  foreground loop `for answer_chunk in generate(q)` followed by
  `thread.join()`.

The queue/callback collaborators (`StreamingStdOutCallbackHandlerYield`,
`generate`) are an external library; their channel semantics (tokens are
pushed in order, `generate` blocks on an empty queue, yields tokens and
terminates at the sentinel pushed by the callback before `app.chat`
returns) is taken from section 4.2 and section 5 of the spec.  The bridge
is modelled as a small-step machine over all interleavings of the worker
and the foreground.
-/

/-- A citation record `(matched_text_fragment, metadata)`; the code reads
only `citation[1]["url"]`, so the metadata is modelled by its url field. -/
structure Citation where
  fragment : String
  url : String
deriving DecidableEq

/-- Does `ys` have the shape `X ++ ".pdf"` with `X` nonempty and dot-free?
This is the `[^\.]+\.pdf` part of the regex `([^/]+)\.[^\.]+\.pdf$` after
the first literal dot. -/
def tailMatch (ys : List Char) : Bool :=
  decide (5 ≤ ys.length) && (ys.drop (ys.length - 4) == ['.', 'p', 'd', 'f'])
    && (ys.take (ys.length - 4)).all (fun ch => ch != '.')

/-- Backtracking match of `([^/]+)\.[^\.]+\.pdf$` anchored at the start of
`l`, trying candidate lengths for the greedy `[^/]+` group from `fuel`
downwards, longest first, exactly like the regex engine. -/
def greedyG1From (l : List Char) : Nat → Option (List Char)
  | 0 => none
  | k + 1 =>
    let g := l.take (k + 1)
    if g.all (fun ch => ch != '/') &&
        (match l.drop (k + 1) with
          | '.' :: ys => tailMatch ys
          | _ => false) then
      some g
    else greedyG1From l k

/-- Group 1 of the regex matched at the start of `l`. -/
def greedyG1 (l : List Char) : Option (List Char) :=
  greedyG1From l l.length

/-- `re.search` of `([^/]+)\.[^\.]+\.pdf$`: scan start positions left to
right, returning group 1 of the first position that matches. -/
def searchG1 : List Char → Option (List Char)
  | [] => none
  | c :: rest =>
    match greedyG1 (c :: rest) with
    | some g => some g
    | none => searchG1 rest

/-- One citation's displayed source (app.py lines 137-141): the url, with a
trailing `<name>.<anything>.pdf` collapsed to `<name>.pdf`. -/
def rewriteSource (url : String) : String :=
  match searchG1 url.data with
  | some g1 => String.mk (g1 ++ ['.', 'p', 'd', 'f'])
  | none => url

/-- The deduplicated source list, `list(set(sources))` (app.py line 143);
CPython set iteration order is implementation-defined, here `List.dedup`. -/
def sourcesList (citations : List Citation) : List String :=
  (citations.map (fun c => rewriteSource c.url)).dedup

/-- The sources block appended to the final answer (app.py lines 133-145):
header plus one bullet per unique source, and no block at all when the
citation list is empty. -/
def sourcesBlock (citations : List Citation) : String :=
  if citations.isEmpty then ""
  else "\n\n**Sources**:\n" ++
    String.join ((sourcesList citations).map (fun s => "- " ++ s ++ "\n"))

/-- State of a `cachetools.TTLCache`: `entries` is the ordered dict of
links in least-recently-used-first order; an entry stores key, value and
absolute expiry time (insertion time + ttl).  The separate expiry-ordered
linked list of the source stays sorted because the ttl is constant and the
timer monotonic, so its expiry sweep removes exactly the entries with
`expires <= now` and is modelled as a filter over this one list. -/
structure TTLCache where
  maxsize : Nat
  ttl : Nat
  entries : List (String × String × Nat)
deriving DecidableEq

/-- `TTLCache.expire`: remove every entry whose expiry time was reached. -/
def TTLCache.expire (now : Nat) (c : TTLCache) : TTLCache :=
  { c with entries := c.entries.filter (fun e => decide (now < e.2.2)) }

/-- `key in cache` (TTLCache.__contains__): present and unexpired; the
lookup does not reorder the links. -/
def TTLCache.contains (now : Nat) (key : String) (c : TTLCache) : Bool :=
  match c.entries.find? (fun e => e.1 == key) with
  | none => false
  | some e => decide (now < e.2.2)

/-- `cache[key]` (TTLCache.__getitem__): a found link is moved to the
most-recently-used end even when expired; a missing or expired key raises
KeyError, modelled as `none`. -/
def TTLCache.getitem (now : Nat) (key : String) (c : TTLCache) :
    Option String × TTLCache :=
  match c.entries.find? (fun e => e.1 == key) with
  | none => (none, c)
  | some e =>
    let moved : TTLCache :=
      { c with entries := c.entries.filter (fun x => x.1 != key) ++ [e] }
    if now < e.2.2 then (some e.2.1, moved) else (none, moved)

/-- `cache[key] = val` (TTLCache.__setitem__): expire stale entries; for a
new key, pop least-recently-used entries (list head) while the insertion
would overflow maxsize (Cache.__setitem__); then (re)link the key at the
most-recently-used end with expiry `now + ttl`. -/
def TTLCache.setitem (now : Nat) (key val : String) (c : TTLCache) : TTLCache :=
  let c1 := TTLCache.expire now c
  let es :=
    if c1.entries.any (fun e => e.1 == key) then
      c1.entries.filter (fun e => e.1 != key)
    else
      c1.entries.drop (c1.entries.length + 1 - c1.maxsize)
  { c1 with entries := es ++ [(key, val, now + c1.ttl)] }

/-- The module-level response cache, app.py line 16. -/
def response_cache : TTLCache := { maxsize := 100, ttl := 300, entries := [] }

/-- One transcript turn of `st.session_state.messages`. -/
structure Message where
  role : String
  content : String
deriving DecidableEq

/-- Per-session state: the transcript, the response cache, and the file
names already ingested (`st.session_state["add_pdf_files"]`). -/
structure Session where
  messages : List Message
  cache : TTLCache
  addPdfFiles : List String
deriving DecidableEq

/-- `process_user_input` (app.py lines 95-151).  The bridge's observable
outputs on a cache miss are passed in: `streamed` is the accumulated token
text and `answer`, `citations` the values read from the result dict after
the join (the machine below produces them).  The user turn is appended
first; a cache hit appends the cached text and returns before any thread,
queue or model call exists; a miss appends the streamed text plus the
sources block and writes that same text through to the cache.  The code
reads `answer` from the result dict but never uses it afterwards. -/
def process_user_input (now : Nat) (prompt streamed answer : String)
    (citations : List Citation) (s : Session) : Session :=
  let s1 : Session := { s with messages := s.messages ++ [⟨"user", prompt⟩] }
  if TTLCache.contains now prompt s1.cache then
    let r := TTLCache.getitem now prompt s1.cache
    { s1 with messages := s1.messages ++ [⟨"assistant", r.1.getD ""⟩], cache := r.2 }
  else
    let full_response := streamed ++ sourcesBlock citations
    { s1 with
      messages := s1.messages ++ [⟨"assistant", full_response⟩],
      cache := TTLCache.setitem now prompt full_response s1.cache }

/-- `clear_chat_history` (app.py lines 161-162): only the transcript is
reset. -/
def clear_chat_history (s : Session) : Session := { s with messages := [] }

/-- Outcome of the external `app.add` call. -/
inductive AddOutcome
  | ok
  | failure (msg : String)
deriving DecidableEq

/-- `add_pdf_to_knowledge_base` (app.py lines 58-70) acting on the list of
existing temporary files: `NamedTemporaryFile(delete=False)` creates
`tempName`; on success `os.remove` deletes it again; when `app.add` raises,
the handler returns the error message and the removal never runs. -/
def add_pdf_to_knowledge_base (fileName tempName : String) (outcome : AddOutcome)
    (tempFiles : List String) : String × List String :=
  let created := tempFiles ++ [tempName]
  match outcome with
  | AddOutcome.ok =>
    ("Added " ++ fileName ++ " to knowledge base!", created.erase tempName)
  | AddOutcome.failure e =>
    ("Error adding " ++ fileName ++ " to knowledge base: " ++ e, created)

/-- An item of the streaming queue: a token delta pushed by
`on_llm_new_token`, or the terminal sentinel pushed by `on_llm_end`. -/
inductive QItem
  | token (t : String)
  | sentinel
deriving DecidableEq

/-- One observable action of the background `app_response` thread: the
streaming callback pushing into the queue, one of the two result-dict
writes after `app.chat` returns, or an uncaught exception killing the
thread. -/
inductive WAct
  | push (i : QItem)
  | writeAnswer (a : String)
  | writeCitations (cs : List Citation)
  | raiseExc
deriving DecidableEq

/-- Foreground control point: inside the `for answer_chunk in generate(q)`
loop, at `thread.join()`, or past the join. -/
inductive FPhase
  | consuming
  | joining
  | done
deriving DecidableEq

/-- Shared state of one chat invocation: remaining worker actions, queue
contents (FIFO, head is the next item got), the result dict, and the
foreground's accumulator and control point. -/
structure SysState where
  wacts : List WAct
  q : List QItem
  resAnswer : Option String
  resCitations : Option (List Citation)
  display : String
  phase : FPhase
deriving DecidableEq

/-- One step of the background thread; a dead thread (no actions left)
changes nothing. -/
def workerStep (s : SysState) : SysState :=
  match s.wacts with
  | [] => s
  | a :: rest =>
    match a with
    | WAct.push i => { s with wacts := rest, q := s.q ++ [i] }
    | WAct.writeAnswer x => { s with wacts := rest, resAnswer := some x }
    | WAct.writeCitations x => { s with wacts := rest, resCitations := some x }
    | WAct.raiseExc => { s with wacts := [] }

/-- One step of the foreground: `generate(q)` blocks on an empty queue,
yields tokens into the accumulator and stops at the sentinel;
`thread.join()` blocks until the worker has no actions left; the state
after the join is final. -/
def fgStep (s : SysState) : SysState :=
  match s.phase with
  | FPhase.consuming =>
    match s.q with
    | [] => s
    | QItem.token t :: rest => { s with q := rest, display := s.display ++ t }
    | QItem.sentinel :: rest => { s with q := rest, phase := FPhase.joining }
  | FPhase.joining =>
    match s.wacts with
    | [] => { s with phase := FPhase.done }
    | _ :: _ => s
  | FPhase.done => s

/-- Scheduler step: `true` runs the worker, `false` the foreground. -/
def step (w : Bool) (s : SysState) : SysState :=
  if w then workerStep s else fgStep s

/-- Run an arbitrary interleaving of the two threads. -/
def run (sched : List Bool) (s : SysState) : SysState :=
  sched.foldl (fun t w => step w t) s

/-- Worker actions of a successful `app_response` run that streams the
tokens `ts` and then returns `(a, cs)` from `app.chat`: every token is
pushed before the sentinel (`on_llm_end` fires inside `app.chat`), and the
two result-dict writes happen only after the sentinel. -/
def wactsOf (ts : List String) (a : String) (cs : List Citation) : List WAct :=
  ts.map (fun t => WAct.push (QItem.token t)) ++
    [WAct.push QItem.sentinel, WAct.writeAnswer a, WAct.writeCitations cs]

/-- Worker whose `app.chat` raises after streaming `ts`, before
`on_llm_end` ran: no sentinel, no result writes. -/
def wactsCrash (ts : List String) : List WAct :=
  ts.map (fun t => WAct.push (QItem.token t)) ++ [WAct.raiseExc]

/-- Worker that finishes streaming (sentinel pushed) but raises before
writing into the result dict. -/
def wactsNoRes (ts : List String) : List WAct :=
  ts.map (fun t => WAct.push (QItem.token t)) ++
    [WAct.push QItem.sentinel, WAct.raiseExc]

/-- Start of a chat invocation: empty queue, empty result dict, empty
accumulator, foreground entering the consume loop. -/
def initState (w : List WAct) : SysState :=
  { wacts := w, q := [], resAnswer := none, resCitations := none,
    display := "", phase := FPhase.consuming }

/-- `results.get("answer", "")`, read by the foreground after the join. -/
def readAnswer (s : SysState) : String := s.resAnswer.getD ""

/-- `results.get("citations", [])`, read after the join. -/
def readCitations (s : SysState) : List Citation := s.resCitations.getD []

/-- The full queue stream of a run that pushes the sentinel last. -/
def stream (ts : List String) : List QItem :=
  ts.map QItem.token ++ [QItem.sentinel]

/-- Fuel-indexed iteration of the worker alone. -/
def workerRun : Nat → SysState → SysState
  | 0, s => s
  | n + 1, s => workerRun n (workerStep s)

/-- Fuel-indexed iteration of the foreground alone. -/
def fgRun : Nat → SysState → SysState
  | 0, s => s
  | n + 1, s => fgRun n (fgStep s)

/-- Upper bound on the number of foreground steps still possible. -/
def fgMeasure (s : SysState) : Nat :=
  s.q.length + (match s.phase with
    | FPhase.consuming => 2
    | FPhase.joining => 1
    | FPhase.done => 0)

/-- Run the worker to completion. -/
def workerAll (s : SysState) : SysState := workerRun s.wacts.length s

/-- Run the foreground until it is stuck. -/
def fgAll (s : SysState) : SysState := fgRun (fgMeasure s) s

/-- The worker run to completion, then the foreground run until stuck. -/
def normState (s : SysState) : SysState := fgAll (workerAll s)

/-- Predicate preserved by every step of a run whose worker crashes before
pushing the sentinel: the foreground is forever inside the consume loop and
no result was written. -/
def CrashInv (s : SysState) : Prop :=
  s.phase = FPhase.consuming ∧ QItem.sentinel ∉ s.q ∧
    (∀ x ∈ s.wacts, x = WAct.raiseExc ∨ ∃ t, x = WAct.push (QItem.token t)) ∧
    s.resAnswer = none ∧ s.resCitations = none

/-- A cache built by 100 inserts of the distinct prompts "0".."99" at the
monotonically increasing times 0..99, so "0" is the oldest-inserted entry. -/
def insertedCache : TTLCache :=
  (List.range 100).foldl (fun c i => TTLCache.setitem i (Nat.repr i) "v" c)
    { maxsize := 100, ttl := 300, entries := [] }

/-- A cache at its maximum capacity of 100 distinct unexpired entries. -/
def fullCache : TTLCache :=
  { maxsize := 100, ttl := 300,
    entries := (List.range 100).map (fun i => (Nat.repr i, "v", 300)) }

/-- A session whose cache holds a fresh entry for the prompt "hi". -/
def hitSession : Session :=
  { messages := [],
    cache := { maxsize := 100, ttl := 300, entries := [("hi", "cached", 300)] },
    addPdfFiles := ["a.pdf"] }

/-- A session with the empty module cache: every prompt is a miss. -/
def missSession : Session :=
  { messages := [], cache := response_cache, addPdfFiles := [] }

/-- Unfolding of `TTLCache.setitem` into its eviction branch and the newly
appended most-recently-used link. -/
theorem setitem_entries_split (now : Nat) (key val : String) (c : TTLCache) :
    (TTLCache.setitem now key val c).entries =
      (if (TTLCache.expire now c).entries.any (fun e => e.1 == key) then
        (TTLCache.expire now c).entries.filter (fun e => e.1 != key)
      else
        (TTLCache.expire now c).entries.drop
          ((TTLCache.expire now c).entries.length + 1 - c.maxsize)) ++
      [(key, val, now + c.ttl)] := rfl

/-- After an insert, the key's link sits at the end and no earlier link
carries the same key. -/
theorem setitem_entries (now : Nat) (key val : String) (c : TTLCache) :
    ∃ es, (TTLCache.setitem now key val c).entries = es ++ [(key, val, now + c.ttl)] ∧
      ∀ x ∈ es, (x.1 == key) = false := by
  rw [setitem_entries_split]
  by_cases h : (TTLCache.expire now c).entries.any (fun e => e.1 == key)
  · rw [if_pos h]
    refine ⟨_, rfl, fun x hx => ?_⟩
    have h2 := (List.mem_filter.mp hx).2
    simpa using h2
  · rw [if_neg h]
    refine ⟨_, rfl, fun x hx => ?_⟩
    have h2 := List.any_eq_false.mp (Bool.eq_false_iff.mpr h) x (List.mem_of_mem_drop hx)
    simpa using h2

/-- Looking an inserted key up finds exactly the link written by the
insert. -/
theorem find?_setitem (now : Nat) (key val : String) (c : TTLCache) :
    (TTLCache.setitem now key val c).entries.find? (fun e => e.1 == key) =
      some (key, val, now + c.ttl) := by
  obtain ⟨es, he, hn⟩ := setitem_entries now key val c
  rw [he, List.find?_append]
  have h0 : es.find? (fun e => e.1 == key) = none :=
    List.find?_eq_none.mpr (fun x hx => by simp [hn x hx])
  rw [h0]
  simp [List.find?]

/-- An inserted entry is contained while its expiry time lies ahead. -/
theorem contains_setitem_fresh (t now : Nat) (key val : String) (c : TTLCache)
    (h : now < t + c.ttl) :
    TTLCache.contains now key (TTLCache.setitem t key val c) = true := by
  unfold TTLCache.contains
  rw [find?_setitem]
  simpa using h

/-- An inserted entry is no longer contained once its expiry time was
reached. -/
theorem contains_setitem_stale (t now : Nat) (key val : String) (c : TTLCache)
    (h : t + c.ttl ≤ now) :
    TTLCache.contains now key (TTLCache.setitem t key val c) = false := by
  unfold TTLCache.contains
  rw [find?_setitem]
  simpa using Nat.not_lt.mpr h

/-- Getting an inserted key returns the inserted value while unexpired. -/
theorem getitem_setitem_fresh (t now : Nat) (key val : String) (c : TTLCache)
    (h : now < t + c.ttl) :
    (TTLCache.getitem now key (TTLCache.setitem t key val c)).1 = some val := by
  unfold TTLCache.getitem
  rw [find?_setitem]
  simp [h]

/-- Getting an inserted key after its expiry raises KeyError (`none`). -/
theorem getitem_setitem_stale (t now : Nat) (key val : String) (c : TTLCache)
    (h : t + c.ttl ≤ now) :
    (TTLCache.getitem now key (TTLCache.setitem t key val c)).1 = none := by
  unfold TTLCache.getitem
  rw [find?_setitem]
  simp [Nat.not_lt.mpr h]

/-- Inserting a new key into a full cache of unexpired entries drops
exactly the head of the LRU order and appends the new link. -/
theorem setitem_full_evicts_head (now : Nat) (key val : String) (c : TTLCache)
    (hmax : c.maxsize = 100) (hfull : c.entries.length = 100)
    (hnew : ∀ e ∈ c.entries, (e.1 == key) = false)
    (hfresh : ∀ e ∈ c.entries, now < e.2.2) :
    (TTLCache.setitem now key val c).entries
      = c.entries.drop 1 ++ [(key, val, now + c.ttl)] := by
  have hexp : (TTLCache.expire now c).entries = c.entries := by
    unfold TTLCache.expire
    exact List.filter_eq_self.mpr (fun a ha => by simpa using hfresh a ha)
  have hany : (TTLCache.expire now c).entries.any (fun e => e.1 == key) = false := by
    rw [hexp]
    exact List.any_eq_false.mpr (fun x hx => by simp [hnew x hx])
  rw [setitem_entries_split, hany]
  simp [hexp, hfull, hmax]

/-- Shifting the accumulator of the `String` fold underlying
`String.join`. -/
theorem str_foldl_append (l : List String) (x y : String) :
    l.foldl (fun r s => r ++ s) (x ++ y) = x ++ l.foldl (fun r s => r ++ s) y := by
  induction l generalizing y with
  | nil => rfl
  | cons h t ih =>
    show t.foldl _ (x ++ y ++ h) = x ++ t.foldl _ (y ++ h)
    rw [String.append_assoc]
    exact ih (y ++ h)

/-- `String.join` peels its first string off the front. -/
theorem str_join_cons (t : String) (l : List String) :
    String.join (t :: l) = t ++ String.join l := by
  show l.foldl (fun r s => r ++ s) ("" ++ t) = t ++ String.join l
  rw [String.empty_append, ← String.append_empty t, String.append_assoc]
  rw [str_foldl_append l t ""]
  rw [String.empty_append]
  rfl

/-- `workerRun` unfolds one step of fuel. -/
theorem workerRun_succ (n : Nat) (s : SysState) :
    workerRun (n + 1) s = workerRun n (workerStep s) := rfl

/-- `fgRun` unfolds one step of fuel. -/
theorem fgRun_succ (n : Nat) (s : SysState) :
    fgRun (n + 1) s = fgRun n (fgStep s) := rfl

/-- A finished worker stutters. -/
theorem workerStep_of_nil (s : SysState) (h : s.wacts = []) : workerStep s = s := by
  unfold workerStep
  rw [h]

/-- Iterating a finished worker stutters. -/
theorem workerRun_of_nil (n : Nat) (s : SysState) (h : s.wacts = []) :
    workerRun n s = s := by
  induction n with
  | zero => rfl
  | succ n ih => rw [workerRun_succ, workerStep_of_nil s h]; exact ih

/-- A live worker consumes one action per step. -/
theorem workerStep_wacts_lt (s : SysState) (h : s.wacts ≠ []) :
    (workerStep s).wacts.length < s.wacts.length := by
  obtain ⟨w, q, ra, rc, d, ph⟩ := s
  cases w with
  | nil => exact absurd rfl h
  | cons act rest => cases act <;> simp [workerStep]

/-- Splitting worker fuel. -/
theorem workerRun_comp (a b : Nat) (s : SysState) :
    workerRun (a + b) s = workerRun a (workerRun b s) := by
  induction b generalizing s with
  | zero => rfl
  | succ b ih =>
    rw [show a + (b + 1) = (a + b) + 1 from rfl, workerRun_succ, workerRun_succ, ih]

/-- Enough fuel drains the worker's action list. -/
theorem workerRun_wacts_nil (n : Nat) (s : SysState) (h : s.wacts.length ≤ n) :
    (workerRun n s).wacts = [] := by
  induction n generalizing s with
  | zero => exact List.eq_nil_of_length_eq_zero (Nat.le_zero.mp h)
  | succ n ih =>
    rw [workerRun_succ]
    by_cases hw : s.wacts = []
    · exact ih (workerStep s) (by rw [workerStep_of_nil s hw, hw]; simp)
    · exact ih (workerStep s) (by have := workerStep_wacts_lt s hw; omega)

/-- Any fuel at least the action count computes `workerAll`. -/
theorem workerRun_ge (n : Nat) (s : SysState) (h : s.wacts.length ≤ n) :
    workerRun n s = workerAll s := by
  have h1 : (workerRun s.wacts.length s).wacts = [] := workerRun_wacts_nil _ s le_rfl
  calc workerRun n s = workerRun ((n - s.wacts.length) + s.wacts.length) s := by
        rw [Nat.sub_add_cancel h]
    _ = workerRun (n - s.wacts.length) (workerRun s.wacts.length s) :=
        workerRun_comp _ _ s
    _ = workerRun s.wacts.length s := workerRun_of_nil _ _ h1
    _ = workerAll s := rfl

/-- `workerAll` absorbs a leading worker step. -/
theorem workerAll_step (s : SysState) : workerAll (workerStep s) = workerAll s := by
  by_cases hw : s.wacts = []
  · rw [workerStep_of_nil s hw]
  · cases hk : s.wacts.length with
    | zero => exact absurd (List.eq_nil_of_length_eq_zero hk) hw
    | succ k =>
      have hlt := workerStep_wacts_lt s hw
      have h2 : workerAll s = workerRun k (workerStep s) := by
        show workerRun s.wacts.length s = _
        rw [hk, workerRun_succ]
      rw [h2]
      exact (workerRun_ge k (workerStep s) (by omega)).symm ▸ rfl

/-- The foreground never touches the worker's action list. -/
theorem fgStep_wacts (s : SysState) : (fgStep s).wacts = s.wacts := by
  obtain ⟨w, q, ra, rc, d, ph⟩ := s
  cases ph with
  | consuming =>
    cases q with
    | nil => rfl
    | cons i rest => cases i <;> rfl
  | joining => cases w <;> rfl
  | done => rfl

/-- The state after the join is final. -/
theorem fgStep_done (s : SysState) (h : s.phase = FPhase.done) : fgStep s = s := by
  unfold fgStep
  rw [h]

/-- Iterating a stuck foreground stutters. -/
theorem fgRun_of_stuck (n : Nat) (s : SysState) (h : fgStep s = s) : fgRun n s = s := by
  induction n with
  | zero => rfl
  | succ n ih => rw [fgRun_succ, h]; exact ih

/-- Splitting foreground fuel. -/
theorem fgRun_comp (a b : Nat) (s : SysState) :
    fgRun (a + b) s = fgRun a (fgRun b s) := by
  induction b generalizing s with
  | zero => rfl
  | succ b ih =>
    rw [show a + (b + 1) = (a + b) + 1 from rfl, fgRun_succ, fgRun_succ, ih]

/-- A state of measure zero is stuck. -/
theorem fgMeasure_zero_stuck (s : SysState) (h : fgMeasure s = 0) : fgStep s = s := by
  obtain ⟨w, q, ra, rc, d, ph⟩ := s
  cases ph with
  | consuming => simp [fgMeasure] at h
  | joining => simp [fgMeasure] at h
  | done => rfl

/-- Every productive foreground step decreases the measure. -/
theorem fgStep_measure_lt (s : SysState) (h : fgStep s ≠ s) :
    fgMeasure (fgStep s) < fgMeasure s := by
  obtain ⟨w, q, ra, rc, d, ph⟩ := s
  cases ph with
  | consuming =>
    cases q with
    | nil => exact absurd rfl h
    | cons i rest => cases i <;> simp [fgStep, fgMeasure]
  | joining =>
    cases w with
    | nil => simp [fgStep, fgMeasure]
    | cons act rest => exact absurd rfl h
  | done => exact absurd rfl h

/-- Enough fuel drives the foreground into a stuck state. -/
theorem fgRun_stuck_after (n : Nat) (s : SysState) (h : fgMeasure s ≤ n) :
    fgStep (fgRun n s) = fgRun n s := by
  induction n generalizing s with
  | zero => exact fgMeasure_zero_stuck s (Nat.le_zero.mp h)
  | succ n ih =>
    by_cases hst : fgStep s = s
    · rw [fgRun_of_stuck _ s hst]; exact hst
    · rw [fgRun_succ]
      exact ih (fgStep s) (by have := fgStep_measure_lt s hst; omega)

/-- Any fuel at least the measure computes `fgAll`. -/
theorem fgRun_ge (n : Nat) (s : SysState) (h : fgMeasure s ≤ n) :
    fgRun n s = fgAll s := by
  have h1 : fgStep (fgRun (fgMeasure s) s) = fgRun (fgMeasure s) s :=
    fgRun_stuck_after _ s le_rfl
  calc fgRun n s = fgRun ((n - fgMeasure s) + fgMeasure s) s := by
        rw [Nat.sub_add_cancel h]
    _ = fgRun (n - fgMeasure s) (fgRun (fgMeasure s) s) := fgRun_comp _ _ s
    _ = fgRun (fgMeasure s) s := fgRun_of_stuck _ _ h1
    _ = fgAll s := rfl

/-- `fgAll` absorbs a leading foreground step. -/
theorem fgAll_step (s : SysState) : fgAll (fgStep s) = fgAll s := by
  by_cases hst : fgStep s = s
  · rw [hst]
  · cases hk : fgMeasure s with
    | zero => exact absurd (fgMeasure_zero_stuck s hk) hst
    | succ k =>
      have hlt := fgStep_measure_lt s hst
      have h2 : fgAll s = fgRun k (fgStep s) := by
        show fgRun (fgMeasure s) s = _
        rw [hk, fgRun_succ]
      rw [h2]
      exact (fgRun_ge k (fgStep s) (by omega)).symm ▸ rfl

/-- The worker never changes the foreground's control point. -/
theorem workerStep_phase (s : SysState) : (workerStep s).phase = s.phase := by
  obtain ⟨w, q, ra, rc, d, ph⟩ := s
  cases w with
  | nil => rfl
  | cons act rest => cases act <;> rfl

/-- The worker only appends to the queue. -/
theorem workerStep_q_ext (s : SysState) : ∃ l, (workerStep s).q = s.q ++ l := by
  obtain ⟨w, q, ra, rc, d, ph⟩ := s
  cases w with
  | nil => exact ⟨[], by simp [workerStep]⟩
  | cons act rest =>
    cases act with
    | push i => exact ⟨[i], rfl⟩
    | writeAnswer x => exact ⟨[], by simp [workerStep]⟩
    | writeCitations x => exact ⟨[], by simp [workerStep]⟩
    | raiseExc => exact ⟨[], by simp [workerStep]⟩

/-- A consuming foreground with a nonempty queue commutes with any worker
step: the worker appends at the tail while the foreground pops the head. -/
theorem fgStep_commute (s : SysState) (hp : s.phase = FPhase.consuming)
    (hq : s.q ≠ []) : workerStep (fgStep s) = fgStep (workerStep s) := by
  obtain ⟨w, q, ra, rc, d, ph⟩ := s
  subst hp
  cases q with
  | nil => exact absurd rfl hq
  | cons i rest =>
    cases w with
    | nil => cases i <;> rfl
    | cons act racts => cases act <;> cases i <;> rfl

/-- The commutation lifted to a full worker run. -/
theorem workerRun_fgStep_commute (n : Nat) (s : SysState)
    (hp : s.phase = FPhase.consuming) (hq : s.q ≠ []) :
    workerRun n (fgStep s) = fgStep (workerRun n s) := by
  induction n generalizing s with
  | zero => rfl
  | succ n ih =>
    rw [workerRun_succ, workerRun_succ, fgStep_commute s hp hq]
    refine ih (workerStep s) (by rw [workerStep_phase]; exact hp) ?_
    obtain ⟨l, hl⟩ := workerStep_q_ext s
    rw [hl]
    exact fun hc => hq (List.append_eq_nil.mp hc).1

/-- The normal form absorbs worker steps. -/
theorem normState_workerStep (s : SysState) :
    normState (workerStep s) = normState s := by
  unfold normState
  rw [workerAll_step]

/-- A productive foreground step happens either inside the consume loop
with a nonempty queue, or at the join with a finished worker. -/
theorem fgStep_nonstuck_cases (s : SysState) (h : fgStep s ≠ s) :
    (s.phase = FPhase.consuming ∧ s.q ≠ []) ∨
    (s.phase = FPhase.joining ∧ s.wacts = []) := by
  obtain ⟨w, q, ra, rc, d, ph⟩ := s
  cases ph with
  | consuming =>
    cases q with
    | nil => exact absurd rfl h
    | cons i rest => exact Or.inl ⟨rfl, by simp⟩
  | joining =>
    cases w with
    | nil => exact Or.inr ⟨rfl, rfl⟩
    | cons act rest => exact absurd rfl h
  | done => exact absurd rfl h

/-- The normal form absorbs foreground steps. -/
theorem normState_fgStep (s : SysState) : normState (fgStep s) = normState s := by
  by_cases hst : fgStep s = s
  · rw [hst]
  · rcases fgStep_nonstuck_cases s hst with ⟨hp, hq⟩ | ⟨hp, hw⟩
    · have h1 : workerAll (fgStep s) = fgStep (workerAll s) := by
        show workerRun (fgStep s).wacts.length (fgStep s) = _
        rw [fgStep_wacts]
        exact workerRun_fgStep_commute _ s hp hq
      unfold normState
      rw [h1, fgAll_step]
    · have h1 : workerAll s = s := workerRun_of_nil _ s hw
      have h2 : workerAll (fgStep s) = fgStep s := by
        apply workerRun_of_nil
        rw [fgStep_wacts]
        exact hw
      unfold normState
      rw [h1, h2, fgAll_step]

/-- The normal form absorbs any scheduled step. -/
theorem normState_step (w : Bool) (s : SysState) :
    normState (step w s) = normState s := by
  cases w with
  | true => exact normState_workerStep s
  | false => exact normState_fgStep s

/-- Peeling the first scheduler decision off a run. -/
theorem run_cons (w : Bool) (sched : List Bool) (s : SysState) :
    run (w :: sched) s = run sched (step w s) := rfl

/-- Every interleaving has the same normal form as its start state. -/
theorem normState_run (sched : List Bool) (s : SysState) :
    normState (run sched s) = normState s := by
  induction sched generalizing s with
  | nil => rfl
  | cons w rest ih => rw [run_cons, ih, normState_step]

/-- The foreground can pass the join only once the worker finished. -/
theorem fgStep_done_of_done (s : SysState) (h : (fgStep s).phase = FPhase.done) :
    s.phase = FPhase.done ∨ s.wacts = [] := by
  obtain ⟨w, q, ra, rc, d, ph⟩ := s
  cases ph with
  | consuming =>
    cases q with
    | nil => simp [fgStep] at h
    | cons i rest => cases i <;> simp [fgStep] at h
  | joining =>
    cases w with
    | nil => exact Or.inr rfl
    | cons act rest => simp [fgStep] at h
  | done => exact Or.inl rfl

/-- One step preserves: past the join, the worker has finished. -/
theorem doneNil_step (w : Bool) (s : SysState)
    (h : s.phase = FPhase.done → s.wacts = []) :
    (step w s).phase = FPhase.done → (step w s).wacts = [] := by
  cases w with
  | true =>
    rw [show step true s = workerStep s from rfl]
    intro hd
    rw [workerStep_phase] at hd
    have hw := h hd
    rw [workerStep_of_nil s hw]
    exact hw
  | false =>
    rw [show step false s = fgStep s from rfl]
    intro hd
    rcases fgStep_done_of_done s hd with hph | hw
    · have hw := h hph
      rw [fgStep_wacts]
      exact hw
    · rw [fgStep_wacts]
      exact hw

/-- Any run preserves: past the join, the worker has finished. -/
theorem doneNil_run (sched : List Bool) (s : SysState)
    (h : s.phase = FPhase.done → s.wacts = []) :
    (run sched s).phase = FPhase.done → (run sched s).wacts = [] := by
  induction sched generalizing s with
  | nil => exact h
  | cons w rest ih => rw [run_cons]; exact ih (step w s) (doneNil_step w s h)

/-- A completed invocation is its own normal form. -/
theorem normState_of_done (s : SysState) (hd : s.phase = FPhase.done)
    (hw : s.wacts = []) : normState s = s := by
  unfold normState
  rw [show workerAll s = s from workerRun_of_nil _ s hw]
  exact fgRun_of_stuck _ s (fgStep_done s hd)

/-- `wactsOf` peels its first token push. -/
theorem wactsOf_cons (t : String) (ts : List String) (a : String) (cs : List Citation) :
    wactsOf (t :: ts) a cs = WAct.push (QItem.token t) :: wactsOf ts a cs := rfl

/-- `stream` peels its first token. -/
theorem stream_cons (t : String) (ts : List String) :
    stream (t :: ts) = QItem.token t :: stream ts := rfl

/-- Running the successful worker to completion pushes the whole stream in
order and fills both result fields. -/
theorem workerRun_wactsOf (ts : List String) (a : String) (cs : List Citation)
    (q : List QItem) (ra : Option String) (rc : Option (List Citation))
    (d : String) (ph : FPhase) :
    workerRun (ts.length + 3) ⟨wactsOf ts a cs, q, ra, rc, d, ph⟩
      = ⟨[], q ++ stream ts, some a, some cs, d, ph⟩ := by
  induction ts generalizing q with
  | nil => rfl
  | cons t rest ih =>
    have hfuel : (t :: rest).length + 3 = (rest.length + 3) + 1 := by
      simp [List.length_cons]
    rw [hfuel, workerRun_succ]
    have hstep : workerStep ⟨wactsOf (t :: rest) a cs, q, ra, rc, d, ph⟩
        = ⟨wactsOf rest a cs, q ++ [QItem.token t], ra, rc, d, ph⟩ := rfl
    rw [hstep, ih (q ++ [QItem.token t])]
    simp [stream_cons, List.append_assoc]

/-- Running the worker that dies after the sentinel pushes the whole stream
but leaves the result dict untouched. -/
theorem workerRun_wactsNoRes (ts : List String)
    (q : List QItem) (ra : Option String) (rc : Option (List Citation))
    (d : String) (ph : FPhase) :
    workerRun (ts.length + 2) ⟨wactsNoRes ts, q, ra, rc, d, ph⟩
      = ⟨[], q ++ stream ts, ra, rc, d, ph⟩ := by
  induction ts generalizing q with
  | nil => rfl
  | cons t rest ih =>
    have hfuel : (t :: rest).length + 2 = (rest.length + 2) + 1 := by
      simp [List.length_cons]
    rw [hfuel, workerRun_succ]
    have hstep : workerStep ⟨wactsNoRes (t :: rest), q, ra, rc, d, ph⟩
        = ⟨wactsNoRes rest, q ++ [QItem.token t], ra, rc, d, ph⟩ := rfl
    rw [hstep, ih (q ++ [QItem.token t])]
    simp [stream_cons, List.append_assoc]

/-- Draining the full stream accumulates the tokens in order, consumes the
sentinel last, and passes the join. -/
theorem fgRun_stream (ts : List String) (ra : Option String)
    (rc : Option (List Citation)) (d : String) :
    fgRun (ts.length + 3) ⟨[], stream ts, ra, rc, d, FPhase.consuming⟩
      = ⟨[], [], ra, rc, d ++ String.join ts, FPhase.done⟩ := by
  induction ts generalizing d with
  | nil =>
    show fgRun 3 _ = _
    have h1 : fgRun 3 ⟨[], stream [], ra, rc, d, FPhase.consuming⟩
        = ⟨[], [], ra, rc, d, FPhase.done⟩ := rfl
    rw [h1]
    have h2 : d ++ String.join [] = d := String.append_empty d
    rw [h2]
  | cons t rest ih =>
    have hfuel : (t :: rest).length + 3 = (rest.length + 3) + 1 := by
      simp [List.length_cons]
    rw [hfuel, fgRun_succ]
    have hstep : fgStep ⟨[], stream (t :: rest), ra, rc, d, FPhase.consuming⟩
        = ⟨[], stream rest, ra, rc, d ++ t, FPhase.consuming⟩ := rfl
    rw [hstep, ih (d ++ t), str_join_cons, ← String.append_assoc]

/-- The queue stream is one longer than the token list. -/
theorem stream_length (ts : List String) : (stream ts).length = ts.length + 1 := by
  simp [stream]

/-- Any interleaving of a successful invocation that reaches the state past
the join ends in the unique completed state: empty queue, both results
written, display equal to the ordered concatenation of the tokens. -/
theorem bridge_run_done (ts : List String) (a : String) (cs : List Citation)
    (sched : List Bool)
    (h : (run sched (initState (wactsOf ts a cs))).phase = FPhase.done) :
    run sched (initState (wactsOf ts a cs))
      = ⟨[], [], some a, some cs, String.join ts, FPhase.done⟩ := by
  have hwnil : (run sched (initState (wactsOf ts a cs))).wacts = [] :=
    doneNil_run sched _ (fun hd => by simp [initState] at hd) h
  have h1 : normState (run sched (initState (wactsOf ts a cs)))
      = run sched (initState (wactsOf ts a cs)) := normState_of_done _ h hwnil
  have h2 : normState (initState (wactsOf ts a cs))
      = ⟨[], [], some a, some cs, String.join ts, FPhase.done⟩ := by
    unfold normState workerAll
    rw [show (initState (wactsOf ts a cs)).wacts.length = ts.length + 3 from by
      simp [initState, wactsOf]]
    rw [show initState (wactsOf ts a cs)
        = ⟨wactsOf ts a cs, [], none, none, "", FPhase.consuming⟩ from rfl]
    rw [workerRun_wactsOf]
    rw [show ([] : List QItem) ++ stream ts = stream ts from by simp]
    unfold fgAll
    rw [show fgMeasure ⟨[], stream ts, some a, some cs, "", FPhase.consuming⟩
        = ts.length + 3 from by simp [fgMeasure, stream_length]]
    rw [fgRun_stream]
    rw [String.empty_append]
  calc run sched (initState (wactsOf ts a cs))
      = normState (run sched (initState (wactsOf ts a cs))) := h1.symm
    _ = normState (initState (wactsOf ts a cs)) := normState_run sched _
    _ = ⟨[], [], some a, some cs, String.join ts, FPhase.done⟩ := h2

/-- Any completed interleaving with a worker that died after the sentinel
ends with an empty result dict and the streamed display. -/
theorem bridge_nores_done (ts : List String) (sched : List Bool)
    (h : (run sched (initState (wactsNoRes ts))).phase = FPhase.done) :
    run sched (initState (wactsNoRes ts))
      = ⟨[], [], none, none, String.join ts, FPhase.done⟩ := by
  have hwnil : (run sched (initState (wactsNoRes ts))).wacts = [] :=
    doneNil_run sched _ (fun hd => by simp [initState] at hd) h
  have h1 : normState (run sched (initState (wactsNoRes ts)))
      = run sched (initState (wactsNoRes ts)) := normState_of_done _ h hwnil
  have h2 : normState (initState (wactsNoRes ts))
      = ⟨[], [], none, none, String.join ts, FPhase.done⟩ := by
    unfold normState workerAll
    rw [show (initState (wactsNoRes ts)).wacts.length = ts.length + 2 from by
      simp [initState, wactsNoRes]]
    rw [show initState (wactsNoRes ts)
        = ⟨wactsNoRes ts, [], none, none, "", FPhase.consuming⟩ from rfl]
    rw [workerRun_wactsNoRes]
    rw [show ([] : List QItem) ++ stream ts = stream ts from by simp]
    unfold fgAll
    rw [show fgMeasure ⟨[], stream ts, none, none, "", FPhase.consuming⟩
        = ts.length + 3 from by simp [fgMeasure, stream_length]]
    rw [fgRun_stream]
    rw [String.empty_append]
  calc run sched (initState (wactsNoRes ts))
      = normState (run sched (initState (wactsNoRes ts))) := h1.symm
    _ = normState (initState (wactsNoRes ts)) := normState_run sched _
    _ = ⟨[], [], none, none, String.join ts, FPhase.done⟩ := h2

/-- A worker step preserves `CrashInv`. -/
theorem crashInv_workerStep (s : SysState) (h : CrashInv s) :
    CrashInv (workerStep s) := by
  obtain ⟨hp, hq, hw, hra, hrc⟩ := h
  cases hwa : s.wacts with
  | nil => rw [workerStep_of_nil s hwa]; exact ⟨hp, hq, hw, hra, hrc⟩
  | cons act rest =>
    have hact := hw act (by rw [hwa]; exact List.mem_cons_self act rest)
    rcases hact with hr | ⟨t, ht⟩
    · subst hr
      have hstep : workerStep s = { s with wacts := [] } := by
        unfold workerStep
        rw [hwa]
      rw [hstep]
      exact ⟨hp, hq, by simp, hra, hrc⟩
    · subst ht
      have hstep : workerStep s
          = { s with wacts := rest, q := s.q ++ [QItem.token t] } := by
        unfold workerStep
        rw [hwa]
      rw [hstep]
      refine ⟨hp, ?_, ?_, hra, hrc⟩
      · simp [hq]
      · intro x hx
        exact hw x (by rw [hwa]; exact List.mem_cons_of_mem _ hx)

/-- A foreground step preserves `CrashInv`: with no sentinel ever in the
queue, the consume loop never exits. -/
theorem crashInv_fgStep (s : SysState) (h : CrashInv s) : CrashInv (fgStep s) := by
  obtain ⟨hp, hq, hw, hra, hrc⟩ := h
  cases hqe : s.q with
  | nil =>
    have hstep : fgStep s = s := by
      unfold fgStep
      rw [hp, hqe]
    rw [hstep]
    exact ⟨hp, hq, hw, hra, hrc⟩
  | cons i rest =>
    cases i with
    | token t =>
      have hstep : fgStep s = { s with q := rest, display := s.display ++ t } := by
        unfold fgStep
        rw [hp, hqe]
      rw [hstep]
      refine ⟨hp, ?_, hw, hra, hrc⟩
      intro hmem
      exact hq (by rw [hqe]; exact List.mem_cons_of_mem _ hmem)
    | sentinel => exact absurd (by rw [hqe]; exact List.mem_cons_self _ rest) hq

/-- Any interleaving preserves `CrashInv`. -/
theorem crashInv_run (sched : List Bool) (s : SysState) (h : CrashInv s) :
    CrashInv (run sched s) := by
  induction sched generalizing s with
  | nil => exact h
  | cons w rest ih =>
    rw [run_cons]
    refine ih (step w s) ?_
    cases w with
    | true => exact crashInv_workerStep s h
    | false => exact crashInv_fgStep s h

/-- The crash worker's start state satisfies `CrashInv`. -/
theorem crashInv_init (ts : List String) : CrashInv (initState (wactsCrash ts)) := by
  refine ⟨rfl, by simp [initState], ?_, rfl, rfl⟩
  intro x hx
  simp only [initState, wactsCrash, List.mem_append, List.mem_map,
    List.mem_singleton] at hx
  rcases hx with ⟨t, _, ht⟩ | hr
  · exact Or.inr ⟨t, ht.symm⟩
  · exact Or.inl hr

/-- Claim C1: on a cache miss, for a worker that pushes the tokens `ts` in
order, then the sentinel, then writes the result `(a, cs)` into the shared
dict, EVERY interleaving of worker and foreground that completes (reaches
the state past `thread.join()`) has its accumulated display equal to the
concatenation of the tokens in the exact order produced, and the values
read from the result dict after the join are exactly the worker's writes
`a` and `cs`. -/
theorem streaming_bridge_delivers_tokens_and_result (ts : List String) (a : String)
    (cs : List Citation) (sched : List Bool)
    (h : (run sched (initState (wactsOf ts a cs))).phase = FPhase.done) :
    (run sched (initState (wactsOf ts a cs))).display = String.join ts ∧
    readAnswer (run sched (initState (wactsOf ts a cs))) = a ∧
    readCitations (run sched (initState (wactsOf ts a cs))) = cs := by
  rw [bridge_run_done ts a cs sched h]
  exact ⟨rfl, rfl, rfl⟩

/-- Claim C1 witness: a concrete completed interleaving of a two-token
invocation, with the hypothesis discharged by evaluation. -/
theorem streaming_bridge_delivers_tokens_and_result_witness :
    ((run [true, true, true, true, true, false, false, false, false]
        (initState (wactsOf ["He", "llo"] "final" []))).phase = FPhase.done) ∧
    ((run [true, true, true, true, true, false, false, false, false]
        (initState (wactsOf ["He", "llo"] "final" []))).display
      = String.join ["He", "llo"] ∧
     readAnswer (run [true, true, true, true, true, false, false, false, false]
        (initState (wactsOf ["He", "llo"] "final" []))) = "final" ∧
     readCitations (run [true, true, true, true, true, false, false, false, false]
        (initState (wactsOf ["He", "llo"] "final" []))) = []) :=
  ⟨by decide,
   streaming_bridge_delivers_tokens_and_result ["He", "llo"] "final" []
     [true, true, true, true, true, false, false, false, false] (by decide)⟩

/-- Claim C2 (code bug evidence): when the background worker raises before
the sentinel is pushed (`app.chat` fails and `on_llm_end` never runs),
EVERY interleaving, however long, leaves the foreground inside the consume
loop: it never observes termination, never reaches the join, and no result
or failure is ever visible in the result dict.  The consumer loop blocks
forever on `q.get()`, so the claimed termination and error surfacing do not
hold of the code. -/
theorem failing_worker_foreground_never_terminates (ts : List String)
    (sched : List Bool) :
    (run sched (initState (wactsCrash ts))).phase = FPhase.consuming ∧
    (run sched (initState (wactsCrash ts))).resAnswer = none ∧
    (run sched (initState (wactsCrash ts))).resCitations = none := by
  have h := crashInv_run sched _ (crashInv_init ts)
  exact ⟨h.1, h.2.2.2.1, h.2.2.2.2⟩

/-- Claim C3: inserting `(p, a)` and looking `p` up at the same instant
returns `a` (both the containment test and the subscript read), and once
the ttl has elapsed the entry is treated as absent. -/
theorem cache_insert_lookup_and_ttl_expiry (c : TTLCache) (p a : String) (t now : Nat)
    (h1 : 0 < c.ttl) (h2 : t + c.ttl ≤ now) :
    TTLCache.contains t p (TTLCache.setitem t p a c) = true ∧
    (TTLCache.getitem t p (TTLCache.setitem t p a c)).1 = some a ∧
    TTLCache.contains now p (TTLCache.setitem t p a c) = false ∧
    (TTLCache.getitem now p (TTLCache.setitem t p a c)).1 = none :=
  ⟨contains_setitem_fresh t t p a c (by omega),
   getitem_setitem_fresh t t p a c (by omega),
   contains_setitem_stale t now p a c h2,
   getitem_setitem_stale t now p a c h2⟩

/-- Claim C3 witness: the repository's cache (ttl 300) at times 0 and
300. -/
theorem cache_insert_lookup_and_ttl_expiry_witness :
    (0 < response_cache.ttl ∧ 0 + response_cache.ttl ≤ 300) ∧
    (TTLCache.contains 0 "hi" (TTLCache.setitem 0 "hi" "yo" response_cache) = true ∧
     (TTLCache.getitem 0 "hi" (TTLCache.setitem 0 "hi" "yo" response_cache)).1 = some "yo" ∧
     TTLCache.contains 300 "hi" (TTLCache.setitem 0 "hi" "yo" response_cache) = false ∧
     (TTLCache.getitem 300 "hi" (TTLCache.setitem 0 "hi" "yo" response_cache)).1 = none) :=
  ⟨⟨by decide, by decide⟩,
   cache_insert_lookup_and_ttl_expiry response_cache "hi" "yo" 0 300 (by decide) (by decide)⟩

set_option maxRecDepth 100000 in
/-- Claim C4 counterexample: a cache filled to its maximum capacity of 100
by inserting the distinct prompts "0".."99" at times 0..99 ("0" is the
oldest-inserted entry).  After a cache-hit lookup of "0", inserting the
101st distinct prompt evicts "1", not the oldest-inserted "0": "0" is still
contained and "1" is gone, while the size stays 100.  So the evicted entry
is the least-recently-used one, not the oldest-inserted one. -/
theorem cache_eviction_oldest_counterexample :
    insertedCache.entries.length = 100 ∧
    insertedCache.entries.map (fun e => e.1) =
      (List.range 100).map (fun i => Nat.repr i) ∧
    TTLCache.contains 99 "0"
      (TTLCache.setitem 99 "newprompt" "v" (TTLCache.getitem 99 "0" insertedCache).2) = true ∧
    TTLCache.contains 99 "1"
      (TTLCache.setitem 99 "newprompt" "v" (TTLCache.getitem 99 "0" insertedCache).2) = false ∧
    (TTLCache.setitem 99 "newprompt" "v" (TTLCache.getitem 99 "0" insertedCache).2).entries.length
      = 100 := by
  refine ⟨by decide, by decide, by decide, by decide, by decide⟩

/-- Claim C4 as amended: for a cache at its maximum capacity of 100
unexpired entries, inserting a 101st distinct prompt evicts exactly one
prior entry, namely the least-recently-used one (the head of the LRU
order, where a cache-hit lookup counts as a use); the remaining entries
and the new link survive unchanged and the size stays 100.  When no entry
was looked up since insertion, the LRU head coincides with the
oldest-inserted entry. -/
theorem cache_eviction_evicts_lru (c : TTLCache) (key val : String) (now : Nat)
    (hmax : c.maxsize = 100) (hfull : c.entries.length = 100)
    (hnew : ∀ e ∈ c.entries, (e.1 == key) = false)
    (hfresh : ∀ e ∈ c.entries, now < e.2.2) :
    (TTLCache.setitem now key val c).entries
      = c.entries.drop 1 ++ [(key, val, now + c.ttl)] ∧
    (TTLCache.setitem now key val c).entries.length = 100 := by
  have h := setitem_full_evicts_head now key val c hmax hfull hnew hfresh
  refine ⟨h, ?_⟩
  rw [h]
  simp [hfull]

set_option maxRecDepth 100000 in
/-- Claim C4 witness: the amended statement applied to a concrete full
cache of 100 entries. -/
theorem cache_eviction_evicts_lru_witness :
    (fullCache.maxsize = 100 ∧ fullCache.entries.length = 100 ∧
     (∀ e ∈ fullCache.entries, (e.1 == "x") = false) ∧
     (∀ e ∈ fullCache.entries, 0 < e.2.2)) ∧
    ((TTLCache.setitem 0 "x" "v" fullCache).entries
       = fullCache.entries.drop 1 ++ [("x", "v", 0 + fullCache.ttl)] ∧
     (TTLCache.setitem 0 "x" "v" fullCache).entries.length = 100) :=
  ⟨⟨by decide, by decide, by decide, by decide⟩,
   cache_eviction_evicts_lru fullCache "x" "v" 0 (by decide) (by decide) (by decide) (by decide)⟩

/-- Claim C5: the citation formatter maps each citation to its url,
rewrites a url ending in `<name>.<anything>.pdf` to `<name>.pdf` and leaves
other urls unmodified; the two chunk urls of the same report collapse to
the single source `report.pdf`, a plain web url passes through unchanged,
the empty citation list yields no block at all, and the emitted source list
is duplicate-free with exactly the rewritten urls as members. -/
theorem citation_formatter_rewrites_and_dedups :
    rewriteSource "docs/report.chunk1.pdf" = "report.pdf" ∧
    rewriteSource "docs/report.chunk2.pdf" = "report.pdf" ∧
    sourcesBlock [⟨"", "docs/report.chunk1.pdf"⟩, ⟨"", "docs/report.chunk2.pdf"⟩]
      = "\n\n**Sources**:\n- report.pdf\n" ∧
    rewriteSource "https://example.com/page" = "https://example.com/page" ∧
    sourcesBlock [] = "" ∧
    ∀ citations : List Citation,
      (sourcesList citations).Nodup ∧
      ∀ s, s ∈ sourcesList citations ↔ ∃ c ∈ citations, rewriteSource c.url = s := by
  refine ⟨by decide, by decide, by decide, by decide, rfl, fun citations => ⟨?_, fun s => ?_⟩⟩
  · exact (citations.map (fun c => rewriteSource c.url)).nodup_dedup
  · simp [sourcesList, List.mem_dedup, List.mem_map]

/-- Claim C6: processing a prompt first appends the user turn; on a cache
hit it then appends an assistant turn whose content is exactly the cached
text and returns at once — the result is independent of anything the
streaming bridge could produce (no worker, queue or model call is ever
consulted), and the ingested-file set is untouched. -/
theorem cache_hit_appends_cached_text_no_bridge
    (now : Nat) (prompt streamed answer v : String) (citations : List Citation) (s : Session)
    (hhit : TTLCache.contains now prompt s.cache = true)
    (hval : (TTLCache.getitem now prompt s.cache).1 = some v) :
    (process_user_input now prompt streamed answer citations s).messages
      = s.messages ++ [⟨"user", prompt⟩, ⟨"assistant", v⟩] ∧
    (∀ streamed2 answer2 citations2,
       process_user_input now prompt streamed2 answer2 citations2 s
         = process_user_input now prompt streamed answer citations s) ∧
    (process_user_input now prompt streamed answer citations s).addPdfFiles
      = s.addPdfFiles := by
  refine ⟨?_, fun streamed2 answer2 citations2 => ?_, ?_⟩ <;>
    simp [process_user_input, hhit, hval]

/-- Claim C6 witness: a session whose cache holds "hi". -/
theorem cache_hit_appends_cached_text_no_bridge_witness :
    (TTLCache.contains 0 "hi" hitSession.cache = true ∧
     (TTLCache.getitem 0 "hi" hitSession.cache).1 = some "cached") ∧
    ((process_user_input 0 "hi" "streamed" "ans" [] hitSession).messages
       = hitSession.messages ++ [⟨"user", "hi"⟩, ⟨"assistant", "cached"⟩] ∧
     (∀ streamed2 answer2 citations2,
        process_user_input 0 "hi" streamed2 answer2 citations2 hitSession
          = process_user_input 0 "hi" "streamed" "ans" [] hitSession) ∧
     (process_user_input 0 "hi" "streamed" "ans" [] hitSession).addPdfFiles
       = hitSession.addPdfFiles) :=
  ⟨⟨by decide, by decide⟩,
   cache_hit_appends_cached_text_no_bridge 0 "hi" "streamed" "ans" "cached" []
     hitSession (by decide) (by decide)⟩

/-- Claim C7: on a cache miss, the sources block is appended to the
streamed text, an assistant turn with that combined text is appended to
the transcript, the cache entry written for the original prompt is exactly
that full rendered text including the block, and looking the prompt up
right afterwards returns it. -/
theorem cache_miss_appends_and_caches_full_text
    (now : Nat) (prompt streamed answer : String) (citations : List Citation) (s : Session)
    (hmiss : TTLCache.contains now prompt s.cache = false)
    (httl : 0 < s.cache.ttl) :
    (process_user_input now prompt streamed answer citations s).messages
      = s.messages ++ [⟨"user", prompt⟩, ⟨"assistant", streamed ++ sourcesBlock citations⟩] ∧
    (process_user_input now prompt streamed answer citations s).cache
      = TTLCache.setitem now prompt (streamed ++ sourcesBlock citations) s.cache ∧
    (TTLCache.getitem now prompt
        (process_user_input now prompt streamed answer citations s).cache).1
      = some (streamed ++ sourcesBlock citations) := by
  have hc : (process_user_input now prompt streamed answer citations s).cache
      = TTLCache.setitem now prompt (streamed ++ sourcesBlock citations) s.cache := by
    simp [process_user_input, hmiss]
  refine ⟨by simp [process_user_input, hmiss], hc, ?_⟩
  rw [hc]
  exact getitem_setitem_fresh now now prompt (streamed ++ sourcesBlock citations) s.cache
    (by omega)

/-- Claim C7 witness: a miss on the empty repository cache. -/
theorem cache_miss_appends_and_caches_full_text_witness :
    (TTLCache.contains 0 "q" missSession.cache = false ∧
     0 < missSession.cache.ttl) ∧
    ((process_user_input 0 "q" "streamed" "ans" [] missSession).messages
       = missSession.messages ++
           [⟨"user", "q"⟩, ⟨"assistant", "streamed" ++ sourcesBlock []⟩] ∧
     (process_user_input 0 "q" "streamed" "ans" [] missSession).cache
       = TTLCache.setitem 0 "q" ("streamed" ++ sourcesBlock []) missSession.cache ∧
     (TTLCache.getitem 0 "q"
         (process_user_input 0 "q" "streamed" "ans" [] missSession).cache).1
       = some ("streamed" ++ sourcesBlock [])) :=
  ⟨⟨by decide, by decide⟩,
   cache_miss_appends_and_caches_full_text 0 "q" "streamed" "ans" [] missSession
     (by decide) (by decide)⟩

/-- Claim C8: clearing the chat history empties the transcript and changes
nothing else: cache and ingested-file set are untouched. -/
theorem clear_chat_history_only_clears_messages (s : Session) :
    (clear_chat_history s).messages = [] ∧
    (clear_chat_history s).cache = s.cache ∧
    (clear_chat_history s).addPdfFiles = s.addPdfFiles :=
  ⟨rfl, rfl, rfl⟩

/-- Claim C9 (code bug evidence): when the external `app.add` raises, the
handler returns the error message but `os.remove` never runs, so the
freshly created temporary file is left behind — it is NOT removed, contrary
to the claim; on the success path it is removed. -/
theorem add_pdf_failure_leaks_temp_file :
    add_pdf_to_knowledge_base "report.pdf" "/tmp/report.pdfab12.pdf"
        (AddOutcome.failure "boom") []
      = ("Error adding report.pdf to knowledge base: boom", ["/tmp/report.pdfab12.pdf"]) ∧
    add_pdf_to_knowledge_base "report.pdf" "/tmp/report.pdfab12.pdf" AddOutcome.ok []
      = ("Added report.pdf to knowledge base!", []) := by
  refine ⟨by decide, by decide⟩

/-- Claim C10: the `answer` value read from the result dict after the join
is never used — `process_user_input` gives identical results for any two
answers, and the transcript turn and the cache write after a completed
bridge run equal the streamed token accumulation plus the sources block (a
right-hand side in which the worker's returned answer `a` does not occur);
a worker that died before writing the result dict yields the defaults
`""` and `[]` from the two `results.get` reads, while the displayed text is
still the streamed accumulation. -/
theorem answer_field_unused_after_join
    (now : Nat) (prompt streamed a1 a2 a : String) (cits cs : List Citation)
    (ts : List String) (sched sched2 : List Bool) (s : Session)
    (hmiss : TTLCache.contains now prompt s.cache = false)
    (hdone : (run sched (initState (wactsOf ts a cs))).phase = FPhase.done)
    (hdone2 : (run sched2 (initState (wactsNoRes ts))).phase = FPhase.done) :
    process_user_input now prompt streamed a1 cits s
      = process_user_input now prompt streamed a2 cits s ∧
    (process_user_input now prompt
        (run sched (initState (wactsOf ts a cs))).display
        (readAnswer (run sched (initState (wactsOf ts a cs))))
        (readCitations (run sched (initState (wactsOf ts a cs)))) s).messages
      = s.messages ++
          [⟨"user", prompt⟩, ⟨"assistant", String.join ts ++ sourcesBlock cs⟩] ∧
    (process_user_input now prompt
        (run sched (initState (wactsOf ts a cs))).display
        (readAnswer (run sched (initState (wactsOf ts a cs))))
        (readCitations (run sched (initState (wactsOf ts a cs)))) s).cache
      = TTLCache.setitem now prompt (String.join ts ++ sourcesBlock cs) s.cache ∧
    readAnswer (run sched2 (initState (wactsNoRes ts))) = "" ∧
    readCitations (run sched2 (initState (wactsNoRes ts))) = [] := by
  have hF := bridge_run_done ts a cs sched hdone
  have hG := bridge_nores_done ts sched2 hdone2
  refine ⟨rfl, ?_, ?_, ?_, ?_⟩
  · rw [hF]
    simp [process_user_input, hmiss, readCitations]
  · rw [hF]
    simp [process_user_input, hmiss, readCitations]
  · rw [hG]
    rfl
  · rw [hG]
    rfl

/-- Claim C10 witness: a one-token invocation whose returned answer
"different" differs from the streamed text "Hi"; the recorded and cached
text is the streamed one, and the no-result worker yields the defaults. -/
theorem answer_field_unused_after_join_witness :
    (TTLCache.contains 0 "q2" missSession.cache = false ∧
     (run [true, true, true, true, false, false, false]
        (initState (wactsOf ["Hi"] "different" []))).phase = FPhase.done ∧
     (run [true, true, true, false, false, false]
        (initState (wactsNoRes ["Hi"]))).phase = FPhase.done) ∧
    (process_user_input 0 "q2" "str" "answer1" [] missSession
       = process_user_input 0 "q2" "str" "answer2" [] missSession ∧
     (process_user_input 0 "q2"
         (run [true, true, true, true, false, false, false]
           (initState (wactsOf ["Hi"] "different" []))).display
         (readAnswer (run [true, true, true, true, false, false, false]
           (initState (wactsOf ["Hi"] "different" []))))
         (readCitations (run [true, true, true, true, false, false, false]
           (initState (wactsOf ["Hi"] "different" [])))) missSession).messages
       = missSession.messages ++
           [⟨"user", "q2"⟩,
            ⟨"assistant", String.join ["Hi"] ++ sourcesBlock []⟩] ∧
     (process_user_input 0 "q2"
         (run [true, true, true, true, false, false, false]
           (initState (wactsOf ["Hi"] "different" []))).display
         (readAnswer (run [true, true, true, true, false, false, false]
           (initState (wactsOf ["Hi"] "different" []))))
         (readCitations (run [true, true, true, true, false, false, false]
           (initState (wactsOf ["Hi"] "different" [])))) missSession).cache
       = TTLCache.setitem 0 "q2" (String.join ["Hi"] ++ sourcesBlock [])
           missSession.cache ∧
     readAnswer (run [true, true, true, false, false, false]
        (initState (wactsNoRes ["Hi"]))) = "" ∧
     readCitations (run [true, true, true, false, false, false]
        (initState (wactsNoRes ["Hi"]))) = []) :=
  ⟨⟨by decide, by decide, by decide⟩,
   answer_field_unused_after_join 0 "q2" "str" "answer1" "answer2" "different" [] []
     ["Hi"] [true, true, true, true, false, false, false]
     [true, true, true, false, false, false] missSession
     (by decide) (by decide) (by decide)⟩
